import Mathlib

/-!
Verification development for the qautlra-rs market-data gateway.

Shallow embedding of the stream-multiplexing core:
- the market-data distributor (`qamdgateway/src/actors/md_distributor.rs`),
- the WebSocket session actor (`qamdgateway/src/ws_server.rs`),
- the upstream adapter actor and its native SPI callbacks
  (`qamdgateway/src/actors/md_actor.rs`, `qamdgateway-sina/src/actors/sina_md_actor.rs`).

Rust `HashMap<String, V>` is modelled as an association list `List (String × V)`
with insert-or-overwrite / remove / lookup operations; `HashSet<String>` is
modelled as a duplicate-free `List String` with insert-if-absent and remove.
Hash iteration order is not observable in any of the properties proved here
(they are phrased at the level of membership, lookups and message multisets);
the embedding fixes a deterministic order.  Actor mailboxes are modelled by
explicit handler functions `state → message → state × outputs`, a handler
running to completion before the next message, exactly as actix drains a
single-threaded actor mailbox.
-/

namespace QAMDGateway

/-! ## Map and set primitives (embedding of hashbrown::HashMap / HashSet) -/

/-- Lookup in an association list (`HashMap::get`). -/
def alookup {β : Type} (l : List (String × β)) (k : String) : Option β :=
  match l with
  | [] => none
  | (k', v) :: rest => if k' = k then some v else alookup rest k

/-- Insert-or-overwrite in an association list (`HashMap::insert`). -/
def ainsert {β : Type} (l : List (String × β)) (k : String) (v : β) :
    List (String × β) :=
  match l with
  | [] => [(k, v)]
  | (k', v') :: rest => if k' = k then (k, v) :: rest else (k', v') :: ainsert rest k v

/-- Remove a key from an association list (`HashMap::remove`).  A `HashMap`
holds at most one binding per key, so dropping every binding of `k` is the
removal of that one binding. -/
def aremove {β : Type} (l : List (String × β)) (k : String) : List (String × β) :=
  l.filter (fun p => p.1 ≠ k)

/-- Insert into a set (`HashSet::insert`): no effect when already present. -/
def sinsert (l : List String) (x : String) : List String :=
  if x ∈ l then l else l ++ [x]

/-- Remove from a set (`HashSet::remove`). -/
def sremove (l : List String) (x : String) : List String :=
  l.filter (fun y => y ≠ x)

/-! ## Snapshot and source tag -/

/-- The market-data source tag (`MarketDataSource` in `actors/messages.rs`). -/
inductive MarketDataSource : Type
  | CTP
  | QQ
  | Sina
deriving DecidableEq, Repr

/-- A market-data snapshot (`qamd_rs::MDSnapshot`).  The full field list lives
in `qamd-rs/src/snapshot.rs`; the distributor reads only `instrument_id` and
otherwise treats the record as an opaque value that is cached and forwarded
wholesale, so the remaining fields are collapsed into one opaque `body`. -/
structure MDSnapshot : Type where
  instrument_id : String
  body : Nat
deriving DecidableEq, Repr

/-! ## Distributor state (`MarketDataDistributor` in `actors/md_distributor.rs`) -/

/-- Per-client registration record (`struct Subscriber`); the actix
`Recipient` address is modelled by keying outputs with the client id. -/
structure Subscriber : Type where
  instruments : List String
deriving DecidableEq, Repr

/-- The distributor's owned state.  The three actor maps are keyed by broker
id; the actix `Addr` payloads are opaque, so only the keys are kept. -/
structure DistState : Type where
  subscribers : List (String × Subscriber)
  instrument_subscribers : List (String × List String)
  ctp_actors : List String
  qq_actors : List String
  sina_actors : List String
  market_data_cache : List (String × MDSnapshot)
  source_map : List (String × MarketDataSource)
deriving DecidableEq, Repr

/-- Messages the distributor emits while handling one inbound message:
`MarketDataUpdateMessage` pushed to a client session, and `Subscribe` /
`Unsubscribe` requests sent to an upstream adapter actor (identified by its
broker-id key). -/
inductive DistOut : Type
  | marketData (client : String) (instrument : String) (snap : MDSnapshot)
  | subscribeCall (broker : String) (instruments : List String)
  | unsubscribeCall (broker : String) (instruments : List String)
deriving DecidableEq, Repr

/-- `MarketDataDistributor::send_market_data_to_client`: look the client up,
check it is subscribed to the instrument, and push one update message. -/
def send_market_data_to_client (st : DistState) (client instrument : String)
    (snap : MDSnapshot) : List DistOut :=
  match alookup st.subscribers client with
  | none => []
  | some sub =>
    if instrument ∈ sub.instruments then [DistOut.marketData client instrument snap]
    else []

/-- One iteration of the loop body of `MarketDataDistributor::add_subscription`:
insert the instrument into the client's set and the client into the
instrument's subscriber set, and record any cached snapshot for later replay. -/
def add_subscription_step (client : String)
    (acc : DistState × List (String × MDSnapshot)) (instrument : String) :
    DistState × List (String × MDSnapshot) :=
  let s := acc.1
  let s1 : DistState :=
    { s with
      subscribers :=
        match alookup s.subscribers client with
        | none => s.subscribers
        | some sub =>
          ainsert s.subscribers client { instruments := sinsert sub.instruments instrument },
      instrument_subscribers :=
        ainsert s.instrument_subscribers instrument
          (sinsert ((alookup s.instrument_subscribers instrument).getD []) client) }
  match alookup s.market_data_cache instrument with
  | some d => (s1, acc.2 ++ [(instrument, d)])
  | none => (s1, acc.2)

/-- `MarketDataDistributor::add_subscription`: guarded on the client being
registered; loop over the instruments, then replay every cached snapshot that
was collected, against the post-loop state. -/
def add_subscription (st : DistState) (client : String) (instruments : List String) :
    DistState × List DistOut :=
  match alookup st.subscribers client with
  | none => (st, [])
  | some _ =>
    let r := instruments.foldl (add_subscription_step client) (st, [])
    (r.1, (r.2.map (fun p => send_market_data_to_client r.1 client p.1 p.2)).flatten)

/-- The unsubscribe fan-out of `remove_subscription`: when an instrument's
subscriber set becomes empty, an `Unsubscribe` is sent to every registered
actor of the instrument's recorded source kind. -/
def unsubscribeAllOfSource (st : DistState) (src : MarketDataSource)
    (instrument : String) : List DistOut :=
  match src with
  | MarketDataSource.CTP =>
    st.ctp_actors.map (fun b => DistOut.unsubscribeCall b [instrument])
  | MarketDataSource.QQ =>
    st.qq_actors.map (fun b => DistOut.unsubscribeCall b [instrument])
  | MarketDataSource.Sina =>
    st.sina_actors.map (fun b => DistOut.unsubscribeCall b [instrument])

/-- One iteration of the loop body of `MarketDataDistributor::remove_subscription`. -/
def remove_subscription_step (client : String)
    (acc : DistState × List DistOut) (instrument : String) : DistState × List DistOut :=
  let s := acc.1
  let s1 : DistState :=
    { s with
      subscribers :=
        match alookup s.subscribers client with
        | none => s.subscribers
        | some sub =>
          ainsert s.subscribers client { instruments := sremove sub.instruments instrument } }
  match alookup s1.instrument_subscribers instrument with
  | none => (s1, acc.2)
  | some subscriberSet =>
    let subscriberSet := sremove subscriberSet client
    if subscriberSet.isEmpty then
      let s2 : DistState :=
        { s1 with instrument_subscribers := aremove s1.instrument_subscribers instrument }
      match alookup s2.source_map instrument with
      | some src => (s2, acc.2 ++ unsubscribeAllOfSource s2 src instrument)
      | none => (s2, acc.2)
    else
      ({ s1 with
          instrument_subscribers := ainsert s1.instrument_subscribers instrument subscriberSet },
        acc.2)

/-- `MarketDataDistributor::remove_subscription`: guarded on the client being
registered; loop over the instruments, dropping instrument entries whose
subscriber set becomes empty and unsubscribing them from their source. -/
def remove_subscription (st : DistState) (client : String) (instruments : List String) :
    DistState × List DistOut :=
  match alookup st.subscribers client with
  | none => (st, [])
  | some _ => instruments.foldl (remove_subscription_step client) (st, [])

/-- `MarketDataDistributor::find_actor_for_instrument`: prefer the recorded
source of the instrument when an actor of that kind is registered, else fall
back to the first registered actor in the order CTP, QQ, Sina. -/
def find_actor_for_instrument (st : DistState) (instrument : String) :
    Option (String × MarketDataSource) :=
  let fallback : Option (String × MarketDataSource) :=
    match st.ctp_actors with
    | b :: _ => some (b, MarketDataSource.CTP)
    | [] =>
      match st.qq_actors with
      | b :: _ => some (b, MarketDataSource.QQ)
      | [] =>
        match st.sina_actors with
        | b :: _ => some (b, MarketDataSource.Sina)
        | [] => none
  match alookup st.source_map instrument with
  | some MarketDataSource.CTP =>
    match st.ctp_actors with
    | b :: _ => some (b, MarketDataSource.CTP)
    | [] => fallback
  | some MarketDataSource.QQ =>
    match st.qq_actors with
    | b :: _ => some (b, MarketDataSource.QQ)
    | [] => fallback
  | some MarketDataSource.Sina =>
    match st.sina_actors with
    | b :: _ => some (b, MarketDataSource.Sina)
    | [] => fallback
  | none => fallback

/-- One iteration of the per-instrument routing loop shared verbatim by the
`RegisterDataReceiver` and `UpdateSubscription` handlers: find an actor,
record the source, and send a one-instrument `Subscribe` request. -/
def subscribe_via_actor_step (acc : DistState × List DistOut) (instrument : String) :
    DistState × List DistOut :=
  match find_actor_for_instrument acc.1 instrument with
  | some (broker, source) =>
    ({ acc.1 with source_map := ainsert acc.1.source_map instrument source },
      acc.2 ++ [DistOut.subscribeCall broker [instrument]])
  | none => (acc.1, acc.2)

/-- The per-instrument routing loop shared verbatim by the `RegisterDataReceiver`
and `UpdateSubscription` handlers. -/
def subscribeViaActor (st : DistState) (instruments : List String) :
    DistState × List DistOut :=
  instruments.foldl subscribe_via_actor_step (st, [])

/-- `MarketDataDistributor::broadcast_market_data`. -/
def broadcast_market_data (st : DistState) (snap : MDSnapshot) : List DistOut :=
  match alookup st.instrument_subscribers snap.instrument_id with
  | none => []
  | some clients =>
    (clients.map (fun c => send_market_data_to_client st c snap.instrument_id snap)).flatten

/-- `Handler<MarketDataUpdate>`: write the cache and the source map, then
broadcast to the instrument's subscribers. -/
def handleMarketDataUpdate (st : DistState) (snap : MDSnapshot)
    (source : MarketDataSource) : DistState × List DistOut :=
  let instrument := snap.instrument_id
  let st1 : DistState :=
    { st with
      market_data_cache := ainsert st.market_data_cache instrument snap,
      source_map := ainsert st.source_map instrument source }
  (st1, broadcast_market_data st1 snap)

/-- `Handler<RegisterDataReceiver>`: insert a fresh subscriber record, then,
when the initial instrument list is non-empty, add the subscriptions (with
cached-snapshot replay) and route a `Subscribe` per instrument. -/
def handleRegisterDataReceiver (st : DistState) (client : String)
    (instruments : List String) : DistState × List DistOut :=
  let st1 : DistState :=
    { st with subscribers := ainsert st.subscribers client { instruments := [] } }
  if instruments.isEmpty then (st1, [])
  else
    let r1 := add_subscription st1 client instruments
    let r2 := subscribeViaActor r1.1 instruments
    (r2.1, r1.2 ++ r2.2)

/-- `Handler<UnregisterDataReceiver>`: remove the subscriber record first,
then call `remove_subscription` with the instruments it held.  (The order is
taken from the source: the removal happens before the helper call.) -/
def handleUnregisterDataReceiver (st : DistState) (client : String) :
    DistState × List DistOut :=
  match alookup st.subscribers client with
  | none => (st, [])
  | some sub =>
    let st1 : DistState := { st with subscribers := aremove st.subscribers client }
    if sub.instruments.isEmpty then (st1, [])
    else remove_subscription st1 client sub.instruments

/-- `Handler<UpdateSubscription>`: replace the client's subscription set,
computing `to_add` and `to_remove` as set differences.  (The Rust collects
`msg.instruments` into a `HashSet` first; the fold over `sinsert` performs
the same de-duplication.) -/
def handleUpdateSubscription (st : DistState) (client : String)
    (instruments : List String) : DistState × List DistOut :=
  match alookup st.subscribers client with
  | none => (st, [])
  | some sub =>
    let current := sub.instruments
    let newSet := instruments.foldl sinsert []
    let to_add := newSet.filter (fun i => i ∉ current)
    let to_remove := current.filter (fun i => i ∉ newSet)
    let r1 :=
      if to_add.isEmpty then (st, ([] : List DistOut))
      else
        let a := add_subscription st client to_add
        let b := subscribeViaActor a.1 to_add
        (b.1, a.2 ++ b.2)
    let r2 :=
      if to_remove.isEmpty then (r1.1, ([] : List DistOut))
      else remove_subscription r1.1 client to_remove
    (r2.1, r1.2 ++ r2.2)

/-- `Handler<QuerySubscription>`: the client's instruments, or empty. -/
def handleQuerySubscription (st : DistState) (client : String) : List String :=
  match alookup st.subscribers client with
  | none => []
  | some sub => sub.instruments

/-- `Handler<AddSubscription>`: the single-instrument granular form. -/
def handleAddSubscription (st : DistState) (client : String) (instrument : String) :
    DistState × List DistOut :=
  add_subscription st client [instrument]

/-- `Handler<RemoveSubscription>`: the single-instrument granular form. -/
def handleRemoveSubscription (st : DistState) (client : String) (instrument : String) :
    DistState × List DistOut :=
  remove_subscription st client [instrument]

/-- `Handler<GetAllSubscriptions>`: the keys of the instrument index. -/
def handleGetAllSubscriptions (st : DistState) : List String :=
  st.instrument_subscribers.map (fun p => p.1)

/-! ## WebSocket session (`WsSession` in `ws_server.rs`) -/

/-- Session-local state: the client id and the session's own subscription set.
The heartbeat instant and the preferred source are not read by any of the
message-handling paths modelled here. -/
structure WsSessionState : Type where
  client_id : String
  subscriptions : List String
deriving DecidableEq, Repr

/-- The payload the session receives for one instrument inside a
`MarketDataUpdateMessage`: on the wire it is the JSON string the distributor
produced from an `MDSnapshot`.  Whether `serde_json::from_value::<MDSnapshot>`
succeeds on it again depends on the serde attributes in
`qamd-rs/src/snapshot.rs`, so that outcome is carried as a boolean field. -/
structure MDPayload : Type where
  snap : MDSnapshot
  legacy_parse_ok : Bool
deriving DecidableEq, Repr

/-- Outbound frames the session writes to its socket (`ctx.text`), by shape. -/
inductive WsFrame : Type
  | systemMsg (message : String)
  | errorMsg (message : String)
  | subscriptionsMsg (instruments : List String)
  | pongMsg
  | rspFrame (aid : String) (ins_list : String)
  | tvMarketData (instrument : String) (snap : MDSnapshot)
  | legacyMarketData (snap : MDSnapshot)
deriving DecidableEq, Repr

/-- Everything a session emits while handling one inbound event: socket
frames and `do_send`s to the distributor. -/
inductive WsOut : Type
  | text (frame : WsFrame)
  | updateSubscription (client : String) (instruments : List String)
  | registerReceiver (client : String) (instruments : List String)
  | unregisterReceiver (client : String)
deriving DecidableEq, Repr

/-- Rust's `str::split(',')` on the character list: an empty input yields one
empty group, a trailing comma yields a trailing empty group. -/
def splitCommaL : List Char → List (List Char)
  | [] => [[]]
  | c :: cs =>
    if c = ',' then [] :: splitCommaL cs
    else
      match splitCommaL cs with
      | [] => [[c]]
      | g :: gs => (c :: g) :: gs

/-- `WsSession::parse_tv_instruments`: split on commas, dropping empty pieces. -/
def parse_tv_instruments (ins_list : String) : List String :=
  ((splitCommaL ins_list.data).map String.mk).filter (fun s => s ≠ "")

/-- `WsSession::handle_subscribe`: an empty list is answered with an error
envelope; otherwise the ids are inserted into the session's local set, an
`UpdateSubscription` carrying exactly the ids is sent to the distributor and
a confirmation envelope is written. -/
def handle_subscribe (sess : WsSessionState) (instruments : List String) :
    WsSessionState × List WsOut :=
  if instruments.isEmpty then
    (sess, [WsOut.text (WsFrame.errorMsg "No instruments specified")])
  else
    let sess1 : WsSessionState :=
      { sess with subscriptions := instruments.foldl sinsert sess.subscriptions }
    (sess1,
      [WsOut.updateSubscription sess.client_id instruments,
        WsOut.text (WsFrame.systemMsg "Subscribed")])

/-- `WsSession::handle_unsubscribe`: an empty list is answered with an error
envelope; otherwise the ids are removed from the session's local set and an
`UpdateSubscription` carrying the remaining set is sent to the distributor. -/
def handle_unsubscribe (sess : WsSessionState) (instruments : List String) :
    WsSessionState × List WsOut :=
  if instruments.isEmpty then
    (sess, [WsOut.text (WsFrame.errorMsg "No instruments specified")])
  else
    let sess1 : WsSessionState :=
      { sess with subscriptions := instruments.foldl sremove sess.subscriptions }
    (sess1,
      [WsOut.updateSubscription sess.client_id sess1.subscriptions,
        WsOut.text (WsFrame.systemMsg "Unsubscribed")])

/-- The `TvSubscribeQuote` arm of the session's `StreamHandler`: parse the
comma-separated list, run `handle_subscribe`, then acknowledge with an
`rsp_subscribe_quote` frame echoing the raw `ins_list`. -/
def handleTvSubscribeQuote (sess : WsSessionState) (ins_list : String) :
    WsSessionState × List WsOut :=
  let instruments := parse_tv_instruments ins_list
  let r := handle_subscribe sess instruments
  (r.1, r.2 ++ [WsOut.text (WsFrame.rspFrame "rsp_subscribe_quote" ins_list)])

/-- `Handler<MarketDataUpdateMessage>` for `WsSession`: for every instrument in
the message that this session is subscribed to and that has a payload, emit
the platform-style (`rtn_data`) frame, then — when the payload re-parses as an
`MDSnapshot` — the legacy `market_data` envelope. -/
def handleMarketDataUpdateMessage (sess : WsSessionState)
    (instruments : List String) (data : List (String × MDPayload)) : List WsFrame :=
  (instruments.map (fun instrument =>
    if instrument ∈ sess.subscriptions then
      match alookup data instrument with
      | some p =>
        [WsFrame.tvMarketData instrument p.snap] ++
          (if p.legacy_parse_ok then [WsFrame.legacyMarketData p.snap] else [])
      | none => []
    else [])).flatten

/-! ## Upstream adapter (`MarketDataActor` in `actors/md_actor.rs`) -/

/-- Calls the adapter issues to the native market-data library. -/
inductive NativeCall : Type
  | reqUserLogin
  | subscribeMarketData (codes : List String)
  | unsubscribeMarketData (codes : List String)
deriving DecidableEq, Repr

/-- Adapter actor state.  `md_api_initialized` stands for `md_api.is_some()`;
the shared `Arc<Mutex<HashSet<String>>>` of confirmed subscriptions is the
`subscribed_instruments` set. -/
structure MarketDataActorState : Type where
  md_api_initialized : Bool
  subscribed_instruments : List String
  is_connected : Bool
  is_logged_in : Bool
deriving DecidableEq, Repr

/-- `s.split('.').last()` in Rust, on the character list of an instrument id:
split on `'.'` (an empty input yields one empty group, a trailing dot yields
a trailing empty group). -/
def splitDotL : List Char → List (List Char)
  | [] => [[]]
  | c :: cs =>
    if c = '.' then [] :: splitDotL cs
    else
      match splitDotL cs with
      | [] => [[c]]
      | g :: gs => (c :: g) :: gs

/-- The instrument-code normalization of the futures adapter
(`md_actor.rs` `subscribe_instruments` / `unsubscribe_instruments`):
`s.split('.').last().unwrap_or(s)`, i.e. everything after the last dot. -/
def stripCode (s : String) : String :=
  String.mk ((splitDotL s.data).getLastD s.data)

/-- `format!("\x7b:0>6\x7d", code)`: left-pad with `'0'` to width 6. -/
def pad6 (s : String) : String :=
  String.mk (List.replicate (6 - s.data.length) '0' ++ s.data)

/-- The instrument-code normalization of the Sina equity adapter
(`sina_md_actor.rs` `subscribe_instruments`): strip like the futures adapter,
then zero-pad purely numeric codes of length ≤ 6 to exactly 6 characters.
(Rust's `char::is_numeric` also accepts non-ASCII Unicode numerics, which do
not occur in instrument codes; the embedding uses ASCII digits.) -/
def sinaNormalizeCode (s : String) : String :=
  let code := stripCode s
  if code.data.all Char.isDigit && code.data.length ≤ 6 then pad6 code else code

/-- `MarketDataActor::subscribe_instruments`: refuse when not logged in or
when the native API is not initialized; otherwise issue one batched native
subscribe call with the stripped codes. -/
def subscribe_instruments (st : MarketDataActorState) (instruments : List String) :
    List NativeCall :=
  if !st.is_logged_in then []
  else if st.md_api_initialized then
    [NativeCall.subscribeMarketData (instruments.map stripCode)]
  else []

/-- `SinaMarketDataActor::subscribe_instruments`: as above but with the
Sina normalization (strip, then zero-pad numeric codes). -/
def sina_subscribe_instruments (st : MarketDataActorState) (instruments : List String) :
    List NativeCall :=
  if !st.is_logged_in then []
  else if st.md_api_initialized then
    [NativeCall.subscribeMarketData (instruments.map sinaNormalizeCode)]
  else []

/-- `MarketDataActor::unsubscribe_instruments`. -/
def unsubscribe_instruments (st : MarketDataActorState) (instruments : List String) :
    List NativeCall :=
  if !st.is_logged_in then []
  else if st.md_api_initialized then
    [NativeCall.unsubscribeMarketData (instruments.map stripCode)]
  else []

/-- `MarketDataActor::login`: when the native API is initialized, fill the
login request and send it (the field filling itself is `fillLoginField`). -/
def loginCall (st : MarketDataActorState) : List NativeCall :=
  if st.md_api_initialized then [NativeCall.reqUserLogin] else []

/-- The events `MarketDataSpiImpl` forwards into the actor's mailbox
(`MarketDataEvent` in `actors/messages.rs`).  The depth-market-data payload is
carried post-conversion: `convert_ctp_to_md_snapshot` yields `some snap` on
success and `none` on a conversion failure. -/
inductive MarketDataEvent : Type
  | connected
  | disconnected
  | loggedIn
  | marketData (conv : Option MDSnapshot)
  | subscriptionSuccess (instrument : String)
  | subscriptionFailure (instrument : String)
  | errorEvent (message : String)
deriving DecidableEq, Repr

/-- `Handler<MarketDataEvent>` for `MarketDataActor`.  Returns the new state,
the native calls issued, and the snapshots forwarded to the distributor. -/
def handleMarketDataEvent (st : MarketDataActorState) (ev : MarketDataEvent) :
    MarketDataActorState × List NativeCall × List MDSnapshot :=
  match ev with
  | MarketDataEvent.connected =>
    let st1 := { st with is_connected := true }
    (st1, loginCall st1, [])
  | MarketDataEvent.disconnected =>
    ({ st with is_connected := false, is_logged_in := false }, [], [])
  | MarketDataEvent.loggedIn =>
    let st1 := { st with is_logged_in := true }
    let instruments := st1.subscribed_instruments
    if instruments.isEmpty then (st1, [], [])
    else (st1, subscribe_instruments st1 instruments, [])
  | MarketDataEvent.marketData conv =>
    match conv with
    | some snap => (st, [], [snap])
    | none => (st, [], [])
  | MarketDataEvent.subscriptionSuccess _ => (st, [], [])
  | MarketDataEvent.subscriptionFailure _ => (st, [], [])
  | MarketDataEvent.errorEvent _ => (st, [], [])

/-- `MarketDataSpiImpl::on_rsp_sub_market_data`: on an acknowledgement for
instrument `id`, insert into the shared `subscribed` set and emit
`SubscriptionSuccess` when the result is ok; emit `SubscriptionFailure` and
leave the set untouched when the result is an error.  A callback without a
specific-instrument field does nothing. -/
def on_rsp_sub_market_data (subscribed : List String) (specific : Option String)
    (ok : Bool) : List String × List MarketDataEvent :=
  match specific with
  | none => (subscribed, [])
  | some id =>
    if ok then (sinsert subscribed id, [MarketDataEvent.subscriptionSuccess id])
    else (subscribed, [MarketDataEvent.subscriptionFailure id])

/-- `MarketDataSpiImpl::on_rsp_un_sub_market_data`: remove from the shared
set on an ok acknowledgement. -/
def on_rsp_un_sub_market_data (subscribed : List String) (specific : Option String)
    (ok : Bool) : List String :=
  match specific with
  | none => subscribed
  | some id => if ok then sremove subscribed id else subscribed

/-- The field filling of `MarketDataActor::login` for one fixed-size byte
buffer of length `bufLen` (the native ABI's `BrokerID` / `UserID` /
`Password` arrays, zero-initialized by `Default::default()`): when the
string is non-empty, copy `min (byte length) (bufLen - 1)` bytes and write a
null byte right after them. -/
def fillLoginField (bufLen : Nat) (s : List Nat) : List Nat :=
  let field := List.replicate bufLen 0
  if s.isEmpty then field
  else
    let copyLen := min s.length (bufLen - 1)
    s.take copyLen ++ [0] ++ field.drop (copyLen + 1)

/-- The spec's normalization rule, stated in its own words: the id with the
optional exchange prefix up to the FIRST `'.'` stripped.  Kept separate from
`stripCode` (the code's rule) so the two can be compared. -/
def stripUpToFirstDotSpec (s : String) : String :=
  if '.' ∈ s.data then String.mk ((s.data.dropWhile (fun c => c ≠ '.')).drop 1)
  else s

/-! ## Lemmas about the map and set primitives -/

theorem alookup_ainsert {β : Type} (l : List (String × β)) (k k' : String) (v : β) :
    alookup (ainsert l k v) k' = if k = k' then some v else alookup l k' := by
  induction l with
  | nil =>
    by_cases h : k = k' <;> simp [ainsert, alookup, h]
  | cons p rest ih =>
    obtain ⟨k₀, v₀⟩ := p
    by_cases h0 : k₀ = k
    · subst h0
      by_cases h : k₀ = k' <;> simp [ainsert, alookup, h]
    · by_cases h : k₀ = k'
      · subst h
        have : ¬ k = k₀ := fun hh => h0 hh.symm
        simp [ainsert, alookup, h0, this]
      · simp [ainsert, alookup, h0, h, ih]

theorem alookup_aremove {β : Type} (l : List (String × β)) (k k' : String) :
    alookup (aremove l k) k' = if k = k' then none else alookup l k' := by
  induction l with
  | nil => by_cases h : k = k' <;> simp [aremove, alookup, h]
  | cons p rest ih =>
    obtain ⟨k₀, v₀⟩ := p
    by_cases h0 : k₀ = k
    · subst h0
      by_cases h : k₀ = k' <;> simp_all [aremove, alookup]
    · by_cases h : k₀ = k'
      · subst h
        have : ¬ k = k₀ := fun hh => h0 hh.symm
        simp_all [aremove, alookup]
      · simp_all [aremove, alookup]

theorem mem_sinsert (l : List String) (x y : String) :
    y ∈ sinsert l x ↔ y ∈ l ∨ y = x := by
  by_cases h : x ∈ l
  · simp only [sinsert, if_pos h]
    constructor
    · exact fun hy => Or.inl hy
    · rintro (hy | rfl) <;> assumption
  · simp [sinsert, if_neg h]

theorem sinsert_of_not_mem {l : List String} {x : String} (h : x ∉ l) :
    sinsert l x = l ++ [x] := by
  simp [sinsert, h]

theorem mem_sremove (l : List String) (x y : String) :
    y ∈ sremove l x ↔ y ∈ l ∧ y ≠ x := by
  simp [sremove]

theorem sremove_sinsert_of_not_mem {l : List String} {x : String} (h : x ∉ l) :
    sremove (sinsert l x) x = l := by
  rw [sinsert_of_not_mem h]
  simp only [sremove, List.filter_append]
  rw [List.filter_eq_self.2, List.filter_cons]
  · simp
  · intro y hy
    simp only [ne_eq, decide_eq_true_eq]
    exact fun hxy => h (hxy ▸ hy)

theorem mem_foldl_sinsert (L : List String) (acc : List String) (x : String) :
    x ∈ L.foldl sinsert acc ↔ x ∈ acc ∨ x ∈ L := by
  induction L generalizing acc with
  | nil => simp
  | cons y L ih =>
    simp only [List.foldl_cons, ih, mem_sinsert, List.mem_cons]
    tauto

theorem nodup_append_singleton {acc : List String} {y : String}
    (hacc : acc.Nodup) (hy : y ∉ acc) : (acc ++ [y]).Nodup := by
  rw [List.nodup_append]
  refine ⟨hacc, by simp, ?_⟩
  intro a ha hb
  simp only [List.mem_singleton] at hb
  subst hb
  exact hy ha

theorem foldl_sinsert_nodup (L : List String) (acc : List String)
    (hacc : acc.Nodup) : (L.foldl sinsert acc).Nodup := by
  induction L generalizing acc with
  | nil => exact hacc
  | cons y L ih =>
    refine ih _ ?_
    by_cases h : y ∈ acc
    · simpa [sinsert, h] using hacc
    · rw [sinsert_of_not_mem h]
      exact nodup_append_singleton hacc h

theorem foldl_sinsert_eq_self {L : List String} (h : L.Nodup) :
    L.foldl sinsert [] = L := by
  suffices H : ∀ acc : List String, acc.Nodup → (∀ x ∈ L, x ∉ acc) →
      L.foldl sinsert acc = acc ++ L by
    simpa using H [] (by simp) (by simp)
  induction L with
  | nil => intro acc _ _; simp
  | cons y L ih =>
    intro acc hacc hdisj
    have hy : y ∉ acc := hdisj y (by simp)
    simp only [List.foldl_cons, sinsert_of_not_mem hy]
    rw [ih (List.Nodup.of_cons h) _ ?_ ?_]
    · simp
    · exact nodup_append_singleton hacc hy
    · intro x hx
      simp only [List.mem_append, List.mem_singleton]
      rintro (hxa | rfl)
      · exact hdisj x (by simp [hx]) hxa
      · exact (List.nodup_cons.1 h).1 hx

theorem foldl_sremove_eq_filter (L : List String) (acc : List String) :
    L.foldl sremove acc = acc.filter (fun y => y ∉ L) := by
  induction L generalizing acc with
  | nil => simp
  | cons x L ih =>
    simp only [List.foldl_cons, ih, sremove, List.filter_filter]
    congr 1
    funext y
    by_cases h1 : y = x <;> by_cases h2 : y ∈ L <;> simp [h1, h2]

theorem foldl_sremove_self (L : List String) : L.foldl sremove L = [] := by
  rw [foldl_sremove_eq_filter]
  simp

theorem splitDotL_no_dot {l : List Char} (h : '.' ∉ l) : splitDotL l = [l] := by
  induction l with
  | nil => rfl
  | cons c cs ih =>
    have hc : c ≠ '.' := fun hh => h (by simp [hh])
    have hcs : '.' ∉ cs := fun hh => h (by simp [hh])
    simp only [splitDotL, if_neg hc, ih hcs]

theorem stripCode_of_no_dot {s : String} (h : '.' ∉ s.data) : stripCode s = s := by
  rw [stripCode, splitDotL_no_dot h]
  cases s
  rfl

theorem map_stripCode_of_no_dot {L : List String} (h : ∀ x ∈ L, '.' ∉ x.data) :
    L.map stripCode = L := by
  induction L with
  | nil => rfl
  | cons x L ih =>
    simp only [List.map_cons, stripCode_of_no_dot (h x (by simp)),
      ih (fun y hy => h y (by simp [hy])), List.cons.injEq, and_self]

theorem splitDotL_ne_nil (l : List Char) : splitDotL l ≠ [] := by
  cases l with
  | nil => simp [splitDotL]
  | cons c cs =>
    simp only [splitDotL]
    split
    · simp
    · cases h : splitDotL cs <;> simp

theorem length_splitDotL (l : List Char) : (splitDotL l).length = l.count '.' + 1 := by
  induction l with
  | nil => simp [splitDotL]
  | cons c cs ih =>
    by_cases hc : c = '.'
    · subst hc
      simp [splitDotL, List.count_cons, ih]
    · simp only [splitDotL, if_neg hc]
      cases hsp : splitDotL cs with
      | nil => exact absurd hsp (splitDotL_ne_nil cs)
      | cons g gs =>
        rw [hsp] at ih
        simp only [List.length_cons] at ih ⊢
        rw [List.count_cons]
        simp [hc, ih]

theorem getLastD_splitDotL (l : List Char) (d : List Char) (h : l.count '.' ≤ 1) :
    (splitDotL l).getLastD d =
      (if '.' ∈ l then (l.dropWhile (fun c => c ≠ '.')).drop 1 else l) := by
  induction l generalizing d with
  | nil => simp [splitDotL]
  | cons c cs ih =>
    by_cases hc : c = '.'
    · subst hc
      have hcs : '.' ∉ cs := by
        rw [← List.count_eq_zero]
        rw [List.count_cons] at h
        simp at h
        omega
      rw [show splitDotL ('.' :: cs) = [] :: splitDotL cs by simp [splitDotL]]
      rw [splitDotL_no_dot hcs]
      simp [List.dropWhile]
    · have hcnt : cs.count '.' ≤ 1 := by
        rw [List.count_cons] at h
        simp [hc] at h
        omega
      have hsplit : splitDotL (c :: cs) =
          match splitDotL cs with
          | [] => [[c]]
          | g :: gs => (c :: g) :: gs := by
        simp [splitDotL, hc]
      cases hsp : splitDotL cs with
      | nil => exact absurd hsp (splitDotL_ne_nil cs)
      | cons g gs =>
        rw [hsplit, hsp]
        cases gs with
        | nil =>
          have hcount : cs.count '.' = 0 := by
            have := length_splitDotL cs
            rw [hsp] at this
            simp at this
            omega
          have hnod : '.' ∉ cs := List.count_eq_zero.1 hcount
          have hg : g = cs := by
            have := splitDotL_no_dot hnod
            rw [hsp] at this
            simpa using this
          rw [hg]
          have h1 : ¬ ('.' = c) := fun hh => hc hh.symm
          simp [h1, hnod, List.getLastD_cons]
        | cons g' gs' =>
          have hmem : '.' ∈ cs := by
            have := length_splitDotL cs
            rw [hsp] at this
            simp only [List.length_cons] at this
            have : 0 < cs.count '.' := by omega
            exact List.count_pos_iff.1 this
          have hIH := ih d hcnt
          rw [hsp, List.getLastD_cons, List.getLastD_cons] at hIH
          rw [List.getLastD_cons, List.getLastD_cons, hIH]
          have hmc : '.' ∈ c :: cs := List.mem_cons.2 (Or.inr hmem)
          rw [if_pos hmem, if_pos hmc]
          rw [List.dropWhile_cons]
          simp [hc]


theorem add_fold_pres (client : String) (L : List String)
    (acc : DistState × List (String × MDSnapshot)) :
    (L.foldl (add_subscription_step client) acc).1.market_data_cache =
      acc.1.market_data_cache ∧
    (L.foldl (add_subscription_step client) acc).1.source_map = acc.1.source_map ∧
    (L.foldl (add_subscription_step client) acc).1.ctp_actors = acc.1.ctp_actors ∧
    (L.foldl (add_subscription_step client) acc).1.qq_actors = acc.1.qq_actors ∧
    (L.foldl (add_subscription_step client) acc).1.sina_actors = acc.1.sina_actors := by
  induction L generalizing acc with
  | nil => exact ⟨rfl, rfl, rfl, rfl, rfl⟩
  | cons x L ih =>
    have hstep : (add_subscription_step client acc x).1.market_data_cache =
        acc.1.market_data_cache ∧
        (add_subscription_step client acc x).1.source_map = acc.1.source_map ∧
        (add_subscription_step client acc x).1.ctp_actors = acc.1.ctp_actors ∧
        (add_subscription_step client acc x).1.qq_actors = acc.1.qq_actors ∧
        (add_subscription_step client acc x).1.sina_actors = acc.1.sina_actors := by
      simp only [add_subscription_step]
      split <;> exact ⟨rfl, rfl, rfl, rfl, rfl⟩
    have := ih (add_subscription_step client acc x)
    simp only [List.foldl_cons]
    exact ⟨this.1.trans hstep.1, (this.2.1).trans hstep.2.1,
      (this.2.2.1).trans hstep.2.2.1, (this.2.2.2.1).trans hstep.2.2.2.1,
      (this.2.2.2.2).trans hstep.2.2.2.2⟩

theorem add_fold_outputs (client : String) (L : List String)
    (acc : DistState × List (String × MDSnapshot)) :
    (L.foldl (add_subscription_step client) acc).2 =
      acc.2 ++ L.filterMap
        (fun j => (alookup acc.1.market_data_cache j).map (fun d => (j, d))) := by
  induction L generalizing acc with
  | nil => simp
  | cons x L ih =>
    simp only [List.foldl_cons, List.filterMap_cons]
    have hcache : (add_subscription_step client acc x).1.market_data_cache =
        acc.1.market_data_cache := by
      simp only [add_subscription_step]
      split <;> rfl
    cases hx : alookup acc.1.market_data_cache x with
    | none =>
      have hstep2 : (add_subscription_step client acc x).2 = acc.2 := by
        simp only [add_subscription_step, hx]
      rw [ih, hstep2, hcache]
      simp [hx]
    | some d =>
      have hstep2 : (add_subscription_step client acc x).2 = acc.2 ++ [(x, d)] := by
        simp only [add_subscription_step, hx]
      rw [ih, hstep2, hcache]
      simp [hx]

theorem add_fold_subscribers (client : String) (L : List String)
    (acc : DistState × List (String × MDSnapshot)) (sub : Subscriber)
    (hsub : alookup acc.1.subscribers client = some sub) (k : String) :
    alookup (L.foldl (add_subscription_step client) acc).1.subscribers k =
      if client = k then some ⟨L.foldl sinsert sub.instruments⟩
      else alookup acc.1.subscribers k := by
  induction L generalizing acc sub with
  | nil =>
    by_cases hk : client = k
    · subst hk
      simp [hsub]
    · simp [hk]
  | cons x L ih =>
    have hstep : (add_subscription_step client acc x).1.subscribers =
        ainsert acc.1.subscribers client ⟨sinsert sub.instruments x⟩ := by
      simp only [add_subscription_step, hsub]
      split <;> rfl
    have hsub1 : alookup (add_subscription_step client acc x).1.subscribers client =
        some ⟨sinsert sub.instruments x⟩ := by
      rw [hstep, alookup_ainsert, if_pos rfl]
    rw [List.foldl_cons, ih _ _ hsub1]
    by_cases hk : client = k
    · simp [hk]
    · simp only [if_neg hk, hstep, alookup_ainsert, if_neg hk]

theorem add_fold_index (client : String) (L : List String)
    (acc : DistState × List (String × MDSnapshot)) (hnd : L.Nodup) (j : String) :
    alookup (L.foldl (add_subscription_step client) acc).1.instrument_subscribers j =
      if j ∈ L then
        some (sinsert ((alookup acc.1.instrument_subscribers j).getD []) client)
      else alookup acc.1.instrument_subscribers j := by
  induction L generalizing acc with
  | nil => simp
  | cons x L ih =>
    have hstep : (add_subscription_step client acc x).1.instrument_subscribers =
        ainsert acc.1.instrument_subscribers x
          (sinsert ((alookup acc.1.instrument_subscribers x).getD []) client) := by
      simp only [add_subscription_step]
      split <;> rfl
    rw [List.foldl_cons, ih _ (List.Nodup.of_cons hnd)]
    by_cases hjL : j ∈ L
    · have hjx : j ≠ x := fun hh => (List.nodup_cons.1 hnd).1 (hh ▸ hjL)
      have hxj : ¬ x = j := fun hh => hjx hh.symm
      rw [if_pos hjL, if_pos (List.mem_cons.2 (Or.inr hjL))]
      rw [hstep, alookup_ainsert, if_neg hxj]
    · by_cases hjx : j = x
      · subst hjx
        rw [if_neg hjL, if_pos (List.mem_cons.2 (Or.inl rfl))]
        rw [hstep, alookup_ainsert, if_pos rfl]
      · have hxj : ¬ x = j := fun hh => hjx hh.symm
        have hnotm : j ∉ x :: L := by
          intro hh
          rcases List.mem_cons.1 hh with h1 | h1
          · exact hjx h1
          · exact hjL h1
        rw [if_neg hjL, if_neg hnotm, hstep, alookup_ainsert, if_neg hxj]

theorem flatten_map_singletons {α β : Type} (w : List α) (f : α → List β) (g : α → β)
    (h : ∀ p ∈ w, f p = [g p]) : (w.map f).flatten = w.map g := by
  induction w with
  | nil => rfl
  | cons p t ih =>
    simp only [List.map_cons, List.flatten_cons, h p (by simp)]
    rw [ih (fun q hq => h q (by simp [hq]))]
    rfl

theorem count_map_marketData (c : String) (w : List (String × MDSnapshot))
    (i : String) (snap : MDSnapshot) :
    (w.map (fun p => DistOut.marketData c p.1 p.2)).count
      (DistOut.marketData c i snap) = w.count (i, snap) := by
  induction w with
  | nil => rfl
  | cons p t ih =>
    simp only [List.map_cons, List.count_cons, ih]
    congr 1
    by_cases hp : p = (i, snap)
    · subst hp
      simp
    · have hne : ¬ (DistOut.marketData c p.1 p.2 = DistOut.marketData c i snap) := by
        intro hh
        apply hp
        simp only [DistOut.marketData.injEq] at hh
        exact Prod.ext hh.2.1 hh.2.2
      simp [hp, hne]

theorem count_filterMap_cache (L : List String)
    (cache : List (String × MDSnapshot)) (i : String) (snap : MDSnapshot)
    (h : alookup cache i = some snap) :
    (L.filterMap (fun j => (alookup cache j).map (fun d => (j, d)))).count (i, snap) =
      L.count i := by
  induction L with
  | nil => rfl
  | cons j t ih =>
    by_cases hj : j = i
    · subst hj
      simp [List.filterMap_cons, h, List.count_cons, ih]
    · cases hc : alookup cache j with
      | none =>
        simp [List.filterMap_cons, hc, List.count_cons, ih, hj]
      | some d =>
        have hne : ¬ ((j, d) = (i, snap)) := by
          intro hh
          exact hj (congrArg Prod.fst hh)
        simp [List.filterMap_cons, hc, List.count_cons, ih, hj, hne]

theorem mem_filterMap_cache {L : List String}
    {cache : List (String × MDSnapshot)} {p : String × MDSnapshot}
    (h : p ∈ L.filterMap (fun j => (alookup cache j).map (fun d => (j, d)))) :
    p.1 ∈ L := by
  rcases List.mem_filterMap.1 h with ⟨j, hj, hmap⟩
  cases hc : alookup cache j with
  | none =>
    rw [hc] at hmap
    simp at hmap
  | some d =>
    rw [hc] at hmap
    have hpd : (j, d) = p := by simpa using hmap
    rw [← hpd]
    exact hj

theorem subscribeViaActor_no_marketData (st : DistState) (L : List String)
    (c i : String) (snap : MDSnapshot) :
    (subscribeViaActor st L).2.count (DistOut.marketData c i snap) = 0 := by
  suffices H : ∀ acc : DistState × List DistOut,
      (L.foldl subscribe_via_actor_step acc).2.count (DistOut.marketData c i snap) =
        acc.2.count (DistOut.marketData c i snap) by
    simpa [subscribeViaActor] using H (st, [])
  induction L with
  | nil => intro acc; rfl
  | cons x L ih =>
    intro acc
    rw [List.foldl_cons]
    cases hf : find_actor_for_instrument acc.1 x with
    | none =>
      have hstep : subscribe_via_actor_step acc x = (acc.1, acc.2) := by
        simp only [subscribe_via_actor_step, hf]
      rw [hstep, ih]
    | some bs =>
      obtain ⟨broker, source⟩ := bs
      have hstep : subscribe_via_actor_step acc x =
          ({ acc.1 with source_map := ainsert acc.1.source_map x source },
            acc.2 ++ [DistOut.subscribeCall broker [x]]) := by
        simp only [subscribe_via_actor_step, hf]
      rw [hstep, ih]
      simp [List.count_append, List.count_cons]

theorem add_subscription_count (st : DistState) (client : String) (L : List String)
    (i : String) (snap : MDSnapshot) (sub : Subscriber)
    (hsub : alookup st.subscribers client = some sub)
    (hcache : alookup st.market_data_cache i = some snap) :
    (add_subscription st client L).2.count (DistOut.marketData client i snap) =
      L.count i := by
  have houts : (L.foldl (add_subscription_step client) (st, [])).2 =
      L.filterMap (fun j => (alookup st.market_data_cache j).map (fun d => (j, d))) := by
    rw [add_fold_outputs]
    simp
  have hlook : alookup (L.foldl (add_subscription_step client) (st, [])).1.subscribers
      client = some ⟨L.foldl sinsert sub.instruments⟩ := by
    have := add_fold_subscribers client L (st, []) sub hsub client
    rw [if_pos rfl] at this
    exact this
  have hsend : ∀ p ∈ (L.foldl (add_subscription_step client) (st, [])).2,
      send_market_data_to_client (L.foldl (add_subscription_step client) (st, [])).1
        client p.1 p.2 = [DistOut.marketData client p.1 p.2] := by
    intro p hp
    rw [houts] at hp
    have hpL : p.1 ∈ L := mem_filterMap_cache hp
    have hmem : p.1 ∈ L.foldl sinsert sub.instruments :=
      (mem_foldl_sinsert _ _ _).2 (Or.inr hpL)
    simp [send_market_data_to_client, hlook, hmem]
  simp only [add_subscription, hsub]
  rw [flatten_map_singletons _ _ _ hsend, count_map_marketData, houts,
    count_filterMap_cache _ _ _ _ hcache]


theorem remove_step_pres (client : String) (acc : DistState × List DistOut)
    (x : String) :
    (remove_subscription_step client acc x).1.market_data_cache =
      acc.1.market_data_cache ∧
    (remove_subscription_step client acc x).1.source_map = acc.1.source_map ∧
    (remove_subscription_step client acc x).1.ctp_actors = acc.1.ctp_actors ∧
    (remove_subscription_step client acc x).1.qq_actors = acc.1.qq_actors ∧
    (remove_subscription_step client acc x).1.sina_actors = acc.1.sina_actors := by
  refine ⟨?_, ?_, ?_, ?_, ?_⟩ <;>
    (simp only [remove_subscription_step]
     split
     · rfl
     · split
       · split
         · rfl
         · rfl
       · rfl)

theorem remove_fold_pres (client : String) (L : List String)
    (acc : DistState × List DistOut) :
    (L.foldl (remove_subscription_step client) acc).1.market_data_cache =
      acc.1.market_data_cache ∧
    (L.foldl (remove_subscription_step client) acc).1.source_map =
      acc.1.source_map ∧
    (L.foldl (remove_subscription_step client) acc).1.ctp_actors =
      acc.1.ctp_actors ∧
    (L.foldl (remove_subscription_step client) acc).1.qq_actors =
      acc.1.qq_actors ∧
    (L.foldl (remove_subscription_step client) acc).1.sina_actors =
      acc.1.sina_actors := by
  induction L generalizing acc with
  | nil => exact ⟨rfl, rfl, rfl, rfl, rfl⟩
  | cons x L ih =>
    have hstep := remove_step_pres client acc x
    have := ih (remove_subscription_step client acc x)
    simp only [List.foldl_cons]
    exact ⟨this.1.trans hstep.1, (this.2.1).trans hstep.2.1,
      (this.2.2.1).trans hstep.2.2.1, (this.2.2.2.1).trans hstep.2.2.2.1,
      (this.2.2.2.2).trans hstep.2.2.2.2⟩

theorem remove_step_subscribers (client : String) (acc : DistState × List DistOut)
    (x : String) (sub : Subscriber)
    (hsub : alookup acc.1.subscribers client = some sub) :
    (remove_subscription_step client acc x).1.subscribers =
      ainsert acc.1.subscribers client ⟨sremove sub.instruments x⟩ := by
  simp only [remove_subscription_step, hsub]
  split
  · rfl
  · split
    · split
      · rfl
      · rfl
    · rfl

theorem remove_fold_subscribers (client : String) (L : List String)
    (acc : DistState × List DistOut) (sub : Subscriber)
    (hsub : alookup acc.1.subscribers client = some sub) (k : String) :
    alookup (L.foldl (remove_subscription_step client) acc).1.subscribers k =
      if client = k then some ⟨L.foldl sremove sub.instruments⟩
      else alookup acc.1.subscribers k := by
  induction L generalizing acc sub with
  | nil =>
    by_cases hk : client = k
    · subst hk
      simp [hsub]
    · simp [hk]
  | cons x L ih =>
    have hstep := remove_step_subscribers client acc x sub hsub
    have hsub1 : alookup (remove_subscription_step client acc x).1.subscribers
        client = some ⟨sremove sub.instruments x⟩ := by
      rw [hstep, alookup_ainsert, if_pos rfl]
    rw [List.foldl_cons, ih _ _ hsub1]
    by_cases hk : client = k
    · simp [hk]
    · simp only [if_neg hk, hstep, alookup_ainsert, if_neg hk]

theorem remove_step_index (client : String) (acc : DistState × List DistOut)
    (x j : String) :
    alookup (remove_subscription_step client acc x).1.instrument_subscribers j =
      if j = x then
        (match alookup acc.1.instrument_subscribers x with
          | none => none
          | some D =>
            if (sremove D client).isEmpty then none else some (sremove D client))
      else alookup acc.1.instrument_subscribers j := by
  simp only [remove_subscription_step]
  cases hx : alookup acc.1.instrument_subscribers x with
  | none =>
    simp only [hx]
    by_cases hj : j = x
    · subst hj
      simp [hx]
    · simp [hj]
  | some D =>
    simp only [hx]
    by_cases hemp : (sremove D client).isEmpty
    · rw [if_pos hemp]
      split
      · by_cases hj : j = x
        · subst hj
          simp [alookup_aremove, hemp]
        · have hxj : ¬ x = j := fun hh => hj hh.symm
          simp [alookup_aremove, hxj, hj]
      · by_cases hj : j = x
        · subst hj
          simp [alookup_aremove, hemp]
        · have hxj : ¬ x = j := fun hh => hj hh.symm
          simp [alookup_aremove, hxj, hj]
    · rw [if_neg hemp]
      by_cases hj : j = x
      · subst hj
        simp [alookup_ainsert, hemp]
      · have hxj : ¬ x = j := fun hh => hj hh.symm
        simp [alookup_ainsert, hxj, hj]

theorem remove_fold_index (client : String) (L : List String)
    (acc : DistState × List DistOut) (hnd : L.Nodup) (j : String) :
    alookup (L.foldl (remove_subscription_step client) acc).1.instrument_subscribers j =
      if j ∈ L then
        (match alookup acc.1.instrument_subscribers j with
          | none => none
          | some D =>
            if (sremove D client).isEmpty then none else some (sremove D client))
      else alookup acc.1.instrument_subscribers j := by
  induction L generalizing acc with
  | nil => simp
  | cons x L ih =>
    rw [List.foldl_cons, ih _ (List.Nodup.of_cons hnd)]
    by_cases hjL : j ∈ L
    · have hjx : j ≠ x := fun hh => (List.nodup_cons.1 hnd).1 (hh ▸ hjL)
      rw [if_pos hjL, if_pos (List.mem_cons.2 (Or.inr hjL))]
      rw [remove_step_index, if_neg hjx]
    · by_cases hjx : j = x
      · subst hjx
        rw [if_neg hjL, if_pos (List.mem_cons.2 (Or.inl rfl))]
        rw [remove_step_index, if_pos rfl]
      · have hnotm : j ∉ x :: L := by
          intro hh
          rcases List.mem_cons.1 hh with h1 | h1
          · exact hjx h1
          · exact hjL h1
        rw [if_neg hjL, if_neg hnotm, remove_step_index, if_neg hjx]

theorem sv_step_pres (acc : DistState × List DistOut) (x : String) :
    (subscribe_via_actor_step acc x).1.subscribers = acc.1.subscribers ∧
    (subscribe_via_actor_step acc x).1.instrument_subscribers =
      acc.1.instrument_subscribers ∧
    (subscribe_via_actor_step acc x).1.market_data_cache =
      acc.1.market_data_cache ∧
    (subscribe_via_actor_step acc x).1.ctp_actors = acc.1.ctp_actors ∧
    (subscribe_via_actor_step acc x).1.qq_actors = acc.1.qq_actors ∧
    (subscribe_via_actor_step acc x).1.sina_actors = acc.1.sina_actors := by
  refine ⟨?_, ?_, ?_, ?_, ?_, ?_⟩ <;>
    (simp only [subscribe_via_actor_step]
     split
     · rfl
     · rfl)

theorem sv_fold_pres (L : List String) (acc : DistState × List DistOut) :
    (L.foldl subscribe_via_actor_step acc).1.subscribers = acc.1.subscribers ∧
    (L.foldl subscribe_via_actor_step acc).1.instrument_subscribers =
      acc.1.instrument_subscribers ∧
    (L.foldl subscribe_via_actor_step acc).1.market_data_cache =
      acc.1.market_data_cache ∧
    (L.foldl subscribe_via_actor_step acc).1.ctp_actors = acc.1.ctp_actors ∧
    (L.foldl subscribe_via_actor_step acc).1.qq_actors = acc.1.qq_actors ∧
    (L.foldl subscribe_via_actor_step acc).1.sina_actors = acc.1.sina_actors := by
  induction L generalizing acc with
  | nil => exact ⟨rfl, rfl, rfl, rfl, rfl, rfl⟩
  | cons x L ih =>
    have hstep := sv_step_pres acc x
    have := ih (subscribe_via_actor_step acc x)
    simp only [List.foldl_cons]
    exact ⟨this.1.trans hstep.1, (this.2.1).trans hstep.2.1,
      (this.2.2.1).trans hstep.2.2.1, (this.2.2.2.1).trans hstep.2.2.2.1,
      (this.2.2.2.2.1).trans hstep.2.2.2.2.1,
      (this.2.2.2.2.2).trans hstep.2.2.2.2.2⟩

theorem sv_step_source_ne (acc : DistState × List DistOut) (x j : String)
    (hj : j ≠ x) :
    alookup (subscribe_via_actor_step acc x).1.source_map j =
      alookup acc.1.source_map j := by
  have hxj : ¬ x = j := fun hh => hj hh.symm
  simp only [subscribe_via_actor_step]
  split <;> simp [alookup_ainsert, hxj]

theorem sv_fold_source_off (L : List String) (acc : DistState × List DistOut)
    (j : String) (hj : j ∉ L) :
    alookup (L.foldl subscribe_via_actor_step acc).1.source_map j =
      alookup acc.1.source_map j := by
  induction L generalizing acc with
  | nil => rfl
  | cons x L ih =>
    have hjx : j ≠ x := fun hh => hj (by simp [hh])
    have hjL : j ∉ L := fun hh => hj (by simp [hh])
    rw [List.foldl_cons, ih _ hjL, sv_step_source_ne _ _ _ hjx]

theorem isEmpty_false_of_ne_nil {l : List String} (h : l ≠ []) :
    l.isEmpty = false := by
  cases l with
  | nil => exact absurd rfl h
  | cons a t => rfl

/-! ## Claim theorems -/

/-- C1.  The claim fails and the code contradicts its own evident intent:
`Handler<UnregisterDataReceiver>` removes the client from `subscribers`
FIRST and only then calls `remove_subscription`, whose opening guard
`subscribers.get_mut(client_id)` now misses, so the whole cleanup is
skipped.  At this concrete input the client record is gone (`subs(c)`
undefined) yet `c` is still in `subscribers(i)` — the reciprocal-map
invariant is broken — the index entry survives, and no `Unsubscribe` is
emitted even though the subscriber set should have become empty. -/
theorem c1_unregister_leaves_stale_subscriber_entry :
    alookup (handleUnregisterDataReceiver
      ⟨[("c", ⟨["i"]⟩)], [("i", ["c"])], ["b"], [], [],
        [], [("i", MarketDataSource.CTP)]⟩ "c").1.subscribers "c" = none ∧
    alookup (handleUnregisterDataReceiver
      ⟨[("c", ⟨["i"]⟩)], [("i", ["c"])], ["b"], [], [],
        [], [("i", MarketDataSource.CTP)]⟩ "c").1.instrument_subscribers "i" =
      some ["c"] ∧
    (handleUnregisterDataReceiver
      ⟨[("c", ⟨["i"]⟩)], [("i", ["c"])], ["b"], [], [],
        [], [("i", MarketDataSource.CTP)]⟩ "c").2 = [] := by
  decide

/-- C2 counterexample.  A `subscribe_quote` frame with an empty `ins_list`,
sent while the client holds one subscription, does NOT clear the client's
subscriptions: the session answers with an error envelope, keeps its local
set, and sends nothing to the distributor. -/
theorem c2_empty_ins_list_error_not_clear_all :
    (handleTvSubscribeQuote ⟨"c", ["au2212"]⟩ "").1.subscriptions = ["au2212"] ∧
    (handleTvSubscribeQuote ⟨"c", ["au2212"]⟩ "").2 =
      [WsOut.text (WsFrame.errorMsg "No instruments specified"),
        WsOut.text (WsFrame.rspFrame "rsp_subscribe_quote" "")] := by
  decide

/-- C2 amended.  Handling `subscribe_quote` with `ins_list` L: when the
comma-split of L is empty (in particular when L is the empty string) the
session answers with an error envelope and changes nothing — neither its
local set nor the distributor's; when non-empty, the parsed ids are ADDED to
the session's local subscription set and exactly one `UpdateSubscription`
carrying exactly the parsed ids is sent to the distributor (whose handler
replaces the distributor-side set with them), followed by a confirmation and
the `rsp_subscribe_quote` echo. -/
theorem c2_subscribe_quote_amended (sess : WsSessionState) (L : String) :
    (parse_tv_instruments L = [] →
      (handleTvSubscribeQuote sess L).1 = sess ∧
      (handleTvSubscribeQuote sess L).2 =
        [WsOut.text (WsFrame.errorMsg "No instruments specified"),
          WsOut.text (WsFrame.rspFrame "rsp_subscribe_quote" L)]) ∧
    (parse_tv_instruments L ≠ [] →
      (∀ x, x ∈ (handleTvSubscribeQuote sess L).1.subscriptions ↔
        x ∈ sess.subscriptions ∨ x ∈ parse_tv_instruments L) ∧
      (handleTvSubscribeQuote sess L).2 =
        [WsOut.updateSubscription sess.client_id (parse_tv_instruments L),
          WsOut.text (WsFrame.systemMsg "Subscribed"),
          WsOut.text (WsFrame.rspFrame "rsp_subscribe_quote" L)]) := by
  constructor
  · intro hp
    simp [handleTvSubscribeQuote, handle_subscribe, hp]
  · intro hp
    have hne : (parse_tv_instruments L).isEmpty = false := by
      cases hq : parse_tv_instruments L with
      | nil => exact absurd hq hp
      | cons a l => rfl
    refine ⟨?_, ?_⟩
    · intro x
      simp only [handleTvSubscribeQuote, handle_subscribe, hne, Bool.false_eq_true,
        if_false]
      exact mem_foldl_sinsert _ _ _
    · simp [handleTvSubscribeQuote, handle_subscribe, hne]

theorem c2_subscribe_quote_amended_witness :
    parse_tv_instruments "a,b" ≠ [] ∧
    (handleTvSubscribeQuote ⟨"c", ["au"]⟩ "a,b").2 =
      [WsOut.updateSubscription "c" (parse_tv_instruments "a,b"),
        WsOut.text (WsFrame.systemMsg "Subscribed"),
        WsOut.text (WsFrame.rspFrame "rsp_subscribe_quote" "a,b")] :=
  ⟨by decide,
    ((c2_subscribe_quote_amended ⟨"c", ["au"]⟩ "a,b").2 (by decide)).2⟩

/-- C3 counterexample.  For a subscribed instrument with a re-parseable
payload the session emits both dialect frames, but the platform-style
`rtn_data` frame comes FIRST and the legacy `market_data` envelope second —
the opposite of the claimed order. -/
theorem c3_platform_frame_precedes_legacy :
    handleMarketDataUpdateMessage ⟨"c", ["i"]⟩ ["i"] [("i", ⟨⟨"i", 3⟩, true⟩)] =
      [WsFrame.tvMarketData "i" ⟨"i", 3⟩, WsFrame.legacyMarketData ⟨"i", 3⟩] ∧
    handleMarketDataUpdateMessage ⟨"c", ["i"]⟩ ["i"] [("i", ⟨⟨"i", 3⟩, true⟩)] ≠
      [WsFrame.legacyMarketData ⟨"i", 3⟩, WsFrame.tvMarketData "i" ⟨"i", 3⟩] := by
  decide

/-- C3 amended.  For every snapshot delivered to a session for a subscribed
instrument, the session emits both wire dialects on the same socket in the
order: platform-style `rtn_data` frame first, then the legacy
`market_data` envelope (the latter provided the payload re-parses as an
`MDSnapshot`, which is the case for distributor-produced payloads). -/
theorem c3_both_dialects_platform_first (sess : WsSessionState) (i : String)
    (p : MDPayload) (data : List (String × MDPayload))
    (hs : i ∈ sess.subscriptions) (hd : alookup data i = some p)
    (hp : p.legacy_parse_ok = true) :
    handleMarketDataUpdateMessage sess [i] data =
      [WsFrame.tvMarketData i p.snap, WsFrame.legacyMarketData p.snap] := by
  simp [handleMarketDataUpdateMessage, hs, hd, hp]

theorem c3_both_dialects_platform_first_witness :
    ("x" : String) ∈ (⟨"c", ["x"]⟩ : WsSessionState).subscriptions ∧
    handleMarketDataUpdateMessage ⟨"c", ["x"]⟩ ["x"] [("x", ⟨⟨"x", 5⟩, true⟩)] =
      [WsFrame.tvMarketData "x" ⟨"x", 5⟩, WsFrame.legacyMarketData ⟨"x", 5⟩] :=
  ⟨by decide,
    c3_both_dialects_platform_first ⟨"c", ["x"]⟩ "x" ⟨⟨"x", 5⟩, true⟩
      [("x", ⟨⟨"x", 5⟩, true⟩)] (by decide) (by decide) rfl⟩

/-- C4 counterexample.  With one CTP actor registered and a client with no
subscriptions, `UpdateSubscription(c, [i])` followed by
`UpdateSubscription(c, [])` does not restore the distributor state: the
source map has gained a permanent entry routing `i` to CTP. -/
theorem c4_roundtrip_changes_source_map :
    alookup ((handleUpdateSubscription
        (handleUpdateSubscription
          ⟨[("c", ⟨[]⟩)], [], ["b"], [], [], [], []⟩ "c" ["i"]).1
        "c" []).1).source_map "i" = some MarketDataSource.CTP ∧
    alookup (⟨[("c", ⟨[]⟩)], [], ["b"], [], [], [],
      []⟩ : DistState).source_map "i" = none ∧
    (handleUpdateSubscription
        (handleUpdateSubscription
          ⟨[("c", ⟨[]⟩)], [], ["b"], [], [], [], []⟩ "c" ["i"]).1
        "c" []).1 ≠ ⟨[("c", ⟨[]⟩)], [], ["b"], [], [], [], []⟩ := by
  decide

/-- C5 counterexample.  A `RegisterDataReceiver` whose initial instrument
list contains the same instrument twice replays the cached snapshot TWICE
to the new subscriber, not exactly once. -/
theorem c5_duplicate_register_replays_cache_twice :
    ((handleRegisterDataReceiver ⟨[], [], [], [], [], [("i", ⟨"i", 7⟩)], []⟩
        "c" ["i", "i"]).2).count (DistOut.marketData "c" "i" ⟨"i", 7⟩) = 2 := by
  decide

/-- C6.  A disconnect event (with the actor's native API initialized and a
non-empty confirmed-subscription set of dot-free instrument codes, as the
native acks produce) leaves the subscription set untouched and clears the
logged-in flag; after the reconnect's `Connected` and `LoggedIn` events —
with no subscribe/unsubscribe in between — the set is still the
pre-disconnect set, and the `LoggedIn` handler issues exactly one batched
native subscribe call whose argument set is exactly that set. -/
theorem c6_reconnect_preserves_subscriptions (st : MarketDataActorState)
    (hl : st.is_logged_in = true) (hapi : st.md_api_initialized = true)
    (hne : st.subscribed_instruments ≠ [])
    (hdot : ∀ x ∈ st.subscribed_instruments, '.' ∉ x.data) :
    (handleMarketDataEvent st MarketDataEvent.disconnected).1.subscribed_instruments =
      st.subscribed_instruments ∧
    (handleMarketDataEvent st MarketDataEvent.disconnected).1.is_logged_in = false ∧
    (handleMarketDataEvent
        (handleMarketDataEvent st MarketDataEvent.disconnected).1
        MarketDataEvent.connected).1.subscribed_instruments =
      st.subscribed_instruments ∧
    (handleMarketDataEvent
        (handleMarketDataEvent
          (handleMarketDataEvent st MarketDataEvent.disconnected).1
          MarketDataEvent.connected).1
        MarketDataEvent.loggedIn).1.subscribed_instruments =
      st.subscribed_instruments ∧
    (handleMarketDataEvent
        (handleMarketDataEvent
          (handleMarketDataEvent st MarketDataEvent.disconnected).1
          MarketDataEvent.connected).1
        MarketDataEvent.loggedIn).2.1 =
      [NativeCall.subscribeMarketData st.subscribed_instruments] := by
  refine ⟨rfl, rfl, rfl, ?_, ?_⟩
  · simp only [handleMarketDataEvent]
    split <;> rfl
  simp only [handleMarketDataEvent]
  rw [if_neg (by simpa using hne)]
  simp only [subscribe_instruments, hapi]
  simp [map_stripCode_of_no_dot hdot]

theorem c6_reconnect_preserves_subscriptions_witness :
    ((⟨true, ["au2212", "rb2512"], true, true⟩ :
        MarketDataActorState).subscribed_instruments ≠ []) ∧
    (handleMarketDataEvent
        (handleMarketDataEvent
          (handleMarketDataEvent
            ⟨true, ["au2212", "rb2512"], true, true⟩
            MarketDataEvent.disconnected).1
          MarketDataEvent.connected).1
        MarketDataEvent.loggedIn).2.1 =
      [NativeCall.subscribeMarketData ["au2212", "rb2512"]] :=
  ⟨by decide,
    (c6_reconnect_preserves_subscriptions ⟨true, ["au2212", "rb2512"], true, true⟩
      rfl rfl (by decide) (by decide)).2.2.2.2⟩

/-- C4 amended.  From a state where the client is registered with no current
subscriptions, no subscriber set is empty, and the client is in no subscriber
set (the distributor's documented invariants), `UpdateSubscription(c, S)`
followed by `UpdateSubscription(c, [])` restores the subscriber registry, the
instrument index, the snapshot cache and the actor maps exactly — but NOT the
source map: it may permanently gain a routing entry for each instrument of
`S` (see the counterexample); off `S` the source map is unchanged. -/
theorem c4_subscribe_unsubscribe_roundtrip (st : DistState) (c : String) (S : List String)
    (hc : alookup st.subscribers c = some ⟨[]⟩)
    (hrecip : ∀ j D, alookup st.instrument_subscribers j = some D → c ∉ D)
    (hne : ∀ j, alookup st.instrument_subscribers j ≠ some []) :
    (∀ k, alookup ((handleUpdateSubscription
        (handleUpdateSubscription st c S).1 c []).1).subscribers k =
      alookup st.subscribers k) ∧
    (∀ j, alookup ((handleUpdateSubscription
        (handleUpdateSubscription st c S).1 c []).1).instrument_subscribers j =
      alookup st.instrument_subscribers j) ∧
    ((handleUpdateSubscription
        (handleUpdateSubscription st c S).1 c []).1).market_data_cache =
      st.market_data_cache ∧
    ((handleUpdateSubscription
        (handleUpdateSubscription st c S).1 c []).1).ctp_actors = st.ctp_actors ∧
    ((handleUpdateSubscription
        (handleUpdateSubscription st c S).1 c []).1).qq_actors = st.qq_actors ∧
    ((handleUpdateSubscription
        (handleUpdateSubscription st c S).1 c []).1).sina_actors = st.sina_actors ∧
    (∀ j, j ∉ S → alookup ((handleUpdateSubscription
        (handleUpdateSubscription st c S).1 c []).1).source_map j =
      alookup st.source_map j) := by
  have hS'nodup : (S.foldl sinsert []).Nodup := foldl_sinsert_nodup S [] (by simp)
  have hmemS' : ∀ x, x ∈ S.foldl sinsert [] ↔ x ∈ S := by
    intro x
    rw [mem_foldl_sinsert]
    simp
  have hta : ∀ M : List String, M.filter (fun i => i ∉ ([] : List String)) = M := by
    intro M
    simp
  by_cases hS' : S.foldl sinsert [] = []
  · -- no instruments at all: both updates are no-ops
    have h1 : handleUpdateSubscription st c S = (st, []) := by
      simp only [handleUpdateSubscription, hc]
      simp [hS']
    have h2 : handleUpdateSubscription st c [] = (st, []) := by
      simp only [handleUpdateSubscription, hc]
      simp
    rw [h1]
    simp only []
    rw [h2]
    exact ⟨fun k => rfl, fun j => rfl, rfl, rfl, rfl, rfl, fun j _ => rfl⟩
  · have hSe : (S.foldl sinsert []).isEmpty = false := isEmpty_false_of_ne_nil hS'
    -- characterize the first update
    have hadd1 : (add_subscription st c (S.foldl sinsert [])).1 =
        ((S.foldl sinsert []).foldl (add_subscription_step c) (st, [])).1 := by
      simp only [add_subscription, hc]
    have hr1 : (handleUpdateSubscription st c S).1 =
        (subscribeViaActor (add_subscription st c (S.foldl sinsert [])).1
          (S.foldl sinsert [])).1 := by
      simp only [handleUpdateSubscription, hc]
      simp [hta, hSe]
    -- state A1 after add_subscription, B1 after subscribeViaActor
    obtain ⟨haddc, hadds, haddct, haddq, haddsi⟩ :=
      add_fold_pres c (S.foldl sinsert []) (st, [])
    obtain ⟨hsvs, hsvi, hsvc, hsvct, hsvq, hsvsi⟩ :=
      sv_fold_pres (S.foldl sinsert [])
        ((add_subscription st c (S.foldl sinsert [])).1, [])
    have hsv_unfold : subscribeViaActor (add_subscription st c (S.foldl sinsert [])).1
        (S.foldl sinsert []) =
        (S.foldl sinsert []).foldl subscribe_via_actor_step
          ((add_subscription st c (S.foldl sinsert [])).1, []) := by
      simp only [subscribeViaActor]
    -- lookup of c in B1's subscribers
    have hA1subs : ∀ k, alookup (add_subscription st c (S.foldl sinsert [])).1.subscribers k =
        if c = k then some ⟨S.foldl sinsert []⟩ else alookup st.subscribers k := by
      intro k
      rw [hadd1]
      rw [add_fold_subscribers c (S.foldl sinsert []) (st, []) ⟨[]⟩ hc k]
      by_cases hk : c = k
      · rw [if_pos hk, if_pos hk, foldl_sinsert_eq_self hS'nodup]
      · rw [if_neg hk, if_neg hk]
    have hB1subs : ∀ k, alookup (subscribeViaActor
        (add_subscription st c (S.foldl sinsert [])).1 (S.foldl sinsert [])).1.subscribers k =
        if c = k then some ⟨S.foldl sinsert []⟩ else alookup st.subscribers k := by
      intro k
      rw [hsv_unfold, hsvs]
      exact hA1subs k
    have hcB1 : alookup (subscribeViaActor
        (add_subscription st c (S.foldl sinsert [])).1 (S.foldl sinsert [])).1.subscribers c =
        some ⟨S.foldl sinsert []⟩ := by
      rw [hB1subs c, if_pos rfl]
    -- characterize the second update
    have hr2 : (handleUpdateSubscription (subscribeViaActor
        (add_subscription st c (S.foldl sinsert [])).1 (S.foldl sinsert [])).1 c []).1 =
        (remove_subscription (subscribeViaActor
          (add_subscription st c (S.foldl sinsert [])).1 (S.foldl sinsert [])).1
          c (S.foldl sinsert [])).1 := by
      simp only [handleUpdateSubscription, hcB1]
      simp [hta, hSe]
    have hrem_unfold : (remove_subscription (subscribeViaActor
        (add_subscription st c (S.foldl sinsert [])).1 (S.foldl sinsert [])).1
        c (S.foldl sinsert [])).1 =
        ((S.foldl sinsert []).foldl (remove_subscription_step c)
          ((subscribeViaActor (add_subscription st c (S.foldl sinsert [])).1
            (S.foldl sinsert [])).1, [])).1 := by
      simp only [remove_subscription, hcB1]
    obtain ⟨hremc, hrems, hremct, hremq, hremsi⟩ :=
      remove_fold_pres c (S.foldl sinsert [])
        ((subscribeViaActor (add_subscription st c (S.foldl sinsert [])).1
          (S.foldl sinsert [])).1, [])
    rw [hr1, hr2, hrem_unfold]
    refine ⟨?_, ?_, ?_, ?_, ?_, ?_, ?_⟩
    · -- subscribers pointwise
      intro k
      rw [remove_fold_subscribers c (S.foldl sinsert [])
        ((subscribeViaActor (add_subscription st c (S.foldl sinsert [])).1
          (S.foldl sinsert [])).1, ([] : List DistOut)) ⟨S.foldl sinsert []⟩ hcB1 k]
      by_cases hk : c = k
      · rw [if_pos hk, foldl_sremove_self, ← hk, hc]
      · rw [if_neg hk, hB1subs k, if_neg hk]
    · -- instrument index pointwise
      intro j
      rw [remove_fold_index c (S.foldl sinsert [])
        ((subscribeViaActor (add_subscription st c (S.foldl sinsert [])).1
          (S.foldl sinsert [])).1, ([] : List DistOut)) hS'nodup j]
      have hB1idx : alookup (subscribeViaActor
          (add_subscription st c (S.foldl sinsert [])).1
          (S.foldl sinsert [])).1.instrument_subscribers j =
          if j ∈ S.foldl sinsert [] then
            some (sinsert ((alookup st.instrument_subscribers j).getD []) c)
          else alookup st.instrument_subscribers j := by
        rw [hsv_unfold, hsvi, hadd1]
        exact add_fold_index c (S.foldl sinsert []) (st, []) hS'nodup j
      by_cases hj : j ∈ S.foldl sinsert []
      · rw [if_pos hj, hB1idx, if_pos hj]
        have hcD0 : c ∉ (alookup st.instrument_subscribers j).getD [] := by
          cases halo : alookup st.instrument_subscribers j with
          | none => simp
          | some D1 =>
            simp only [Option.getD_some]
            exact hrecip j D1 halo
        show (if (sremove (sinsert ((alookup st.instrument_subscribers j).getD []) c)
            c).isEmpty = true then none
          else some (sremove (sinsert ((alookup st.instrument_subscribers j).getD []) c) c)) =
          alookup st.instrument_subscribers j
        rw [sremove_sinsert_of_not_mem hcD0]
        cases halo : alookup st.instrument_subscribers j with
        | none => simp [halo]
        | some D1 =>
          have hD1 : D1 ≠ [] := by
            intro hcon
            exact hne j (hcon ▸ halo)
          simp only [halo, Option.getD_some]
          rw [if_neg (by simp [isEmpty_false_of_ne_nil hD1])]
      · rw [if_neg hj, hB1idx, if_neg hj]
    · rw [hremc, hsv_unfold, hsvc, hadd1, haddc]
    · rw [hremct, hsv_unfold, hsvct, hadd1, haddct]
    · rw [hremq, hsv_unfold, hsvq, hadd1, haddq]
    · rw [hremsi, hsv_unfold, hsvsi, hadd1, haddsi]
    · -- source map preserved off S
      intro j hjS
      have hjS' : j ∉ S.foldl sinsert [] := fun hh => hjS ((hmemS' j).1 hh)
      rw [hrems, hsv_unfold, sv_fold_source_off _ _ _ hjS', hadd1, hadds]

theorem c4_subscribe_unsubscribe_roundtrip_witness :
    alookup (⟨[("c", ⟨[]⟩)], [], ["b"], [], [], [], []⟩ : DistState).subscribers
      "c" = some ⟨[]⟩ ∧
    alookup ((handleUpdateSubscription
        (handleUpdateSubscription ⟨[("c", ⟨[]⟩)], [], ["b"], [], [], [], []⟩
          "c" ["i"]).1 "c" []).1).instrument_subscribers "i" =
      alookup (⟨[("c", ⟨[]⟩)], [], ["b"], [], [], [],
        []⟩ : DistState).instrument_subscribers "i" :=
  ⟨by decide,
    (c4_subscribe_unsubscribe_roundtrip ⟨[("c", ⟨[]⟩)], [], ["b"], [], [], [], []⟩
      "c" ["i"] (by decide) (fun j D h => absurd h (by simp [alookup]))
      (fun j => by simp [alookup])).2.1 "i"⟩

/-- C5 amended.  When the cache holds a snapshot for instrument `i` at the
moment a client's subscription to `i` is installed, the replay sends one copy
of the cached snapshot PER OCCURRENCE of `i` in the installing message's
instrument list: exactly one copy for a `RegisterDataReceiver` whose list
mentions `i` once (a duplicated entry replays it once per occurrence, see the
counterexample), and exactly one copy for an `AddSubscription`.  The replay
happens during the handling of that message, hence before any later snapshot
for `i` is delivered. -/
theorem c5_cached_replay_per_occurrence (st : DistState) (client i : String) (snap : MDSnapshot)
    (L : List String)
    (hcache : alookup st.market_data_cache i = some snap)
    (hcount : L.count i = 1) :
    ((handleRegisterDataReceiver st client L).2).count
      (DistOut.marketData client i snap) = 1 ∧
    (∀ sub, alookup st.subscribers client = some sub →
      ((handleAddSubscription st client i).2).count
        (DistOut.marketData client i snap) = 1) := by
  constructor
  · have hiL : i ∈ L := by
      by_contra hmem
      rw [List.count_eq_zero.2 hmem] at hcount
      simp at hcount
    have hLne : L.isEmpty = false := by
      cases L with
      | nil => simp at hiL
      | cons a t => rfl
    simp only [handleRegisterDataReceiver, hLne, Bool.false_eq_true, if_false]
    rw [List.count_append]
    have h1 : (add_subscription
        { st with subscribers := ainsert st.subscribers client ⟨[]⟩ }
        client L).2.count (DistOut.marketData client i snap) = L.count i :=
      add_subscription_count _ client L i snap ⟨[]⟩
        (by rw [alookup_ainsert, if_pos rfl]) hcache
    rw [h1, subscribeViaActor_no_marketData, hcount]
  · intro sub hsub
    have := add_subscription_count st client [i] i snap sub hsub hcache
    simpa [handleAddSubscription] using this

theorem c5_cached_replay_per_occurrence_witness :
    alookup (⟨[], [], [], [], [], [("i", ⟨"i", 7⟩)], []⟩ : DistState).market_data_cache
      "i" = some ⟨"i", 7⟩ ∧
    (["i"] : List String).count "i" = 1 ∧
    ((handleRegisterDataReceiver ⟨[], [], [], [], [], [("i", ⟨"i", 7⟩)], []⟩
        "c" ["i"]).2).count (DistOut.marketData "c" "i" ⟨"i", 7⟩) = 1 :=
  ⟨by decide, by decide,
    (c5_cached_replay_per_occurrence ⟨[], [], [], [], [], [("i", ⟨"i", 7⟩)], []⟩
      "c" "i" ⟨"i", 7⟩ ["i"] (by decide) (by decide)).1⟩

/-- C7 counterexample.  The code strips everything up to the LAST dot
(`split('.').last()`), not up to the first: on an id with two dots the code
sends a different code to the native library than the claim's rule, for the
futures adapter and the Sina adapter alike. -/
theorem c7_strip_is_last_dot_not_first :
    stripCode "SZSE.600.000" = "000" ∧
    stripUpToFirstDotSpec "SZSE.600.000" = "600.000" ∧
    stripCode "SZSE.600.000" ≠ stripUpToFirstDotSpec "SZSE.600.000" ∧
    subscribe_instruments ⟨true, [], true, true⟩ ["SZSE.600.000"] =
      [NativeCall.subscribeMarketData ["000"]] := by
  decide

/-- C7 amended.  The code sent to the native library is the id with
everything up to the LAST `'.'` stripped; for ids containing at most one dot
(every id of the documented shapes) this agrees with the claim's
first-dot rule.  The Sina equity adapter additionally zero-pads purely
numeric stripped codes of at most 6 digits to exactly 6 characters; the
futures adapter sends the stripped code unmodified. -/
theorem c7_normalization_amended (s : String) (h : s.data.count '.' ≤ 1) :
    stripCode s = stripUpToFirstDotSpec s ∧
    sinaNormalizeCode s =
      (if (stripUpToFirstDotSpec s).data.all Char.isDigit &&
          (stripUpToFirstDotSpec s).data.length ≤ 6
        then pad6 (stripUpToFirstDotSpec s) else stripUpToFirstDotSpec s) ∧
    (∀ st : MarketDataActorState, st.is_logged_in = true →
      st.md_api_initialized = true →
      subscribe_instruments st [s] =
        [NativeCall.subscribeMarketData [stripUpToFirstDotSpec s]] ∧
      sina_subscribe_instruments st [s] =
        [NativeCall.subscribeMarketData [sinaNormalizeCode s]]) := by
  have hstrip : stripCode s = stripUpToFirstDotSpec s := by
    rw [stripCode, getLastD_splitDotL s.data s.data h, stripUpToFirstDotSpec]
    by_cases hm : '.' ∈ s.data
    · simp [hm]
    · rw [if_neg hm, if_neg hm]
  refine ⟨hstrip, ?_, ?_⟩
  · simp only [sinaNormalizeCode, hstrip]
  · intro st h1 h2
    constructor
    · simp [subscribe_instruments, h1, h2, hstrip]
    · simp [sina_subscribe_instruments, h1, h2]

theorem c7_normalization_amended_witness :
    ("SZSE.12" : String).data.count '.' ≤ 1 ∧
    stripCode "SZSE.12" = stripUpToFirstDotSpec "SZSE.12" ∧
    sinaNormalizeCode "SZSE.12" =
      (if (stripUpToFirstDotSpec "SZSE.12").data.all Char.isDigit &&
          (stripUpToFirstDotSpec "SZSE.12").data.length ≤ 6
        then pad6 (stripUpToFirstDotSpec "SZSE.12")
        else stripUpToFirstDotSpec "SZSE.12") :=
  ⟨by decide, (c7_normalization_amended "SZSE.12" (by decide)).1,
    (c7_normalization_amended "SZSE.12" (by decide)).2.1⟩

/-- C8.  On a subscribe acknowledgement carrying an error result the SPI
emits a per-instrument `SubscriptionFailure` event and leaves the
confirmed-subscription set untouched; an instrument enters the set only
through an ok acknowledgement naming it. -/
theorem c8_sub_nack_not_added (subscribed : List String) (id : String) :
    (on_rsp_sub_market_data subscribed (some id) false).1 = subscribed ∧
    MarketDataEvent.subscriptionFailure id ∈
      (on_rsp_sub_market_data subscribed (some id) false).2 ∧
    (∀ (spec : Option String) (ok : Bool) (x : String),
      x ∈ (on_rsp_sub_market_data subscribed spec ok).1 →
      x ∈ subscribed ∨ (spec = some x ∧ ok = true)) := by
  refine ⟨rfl, by simp [on_rsp_sub_market_data], ?_⟩
  intro spec ok x hx
  match spec with
  | none => exact Or.inl hx
  | some j =>
    match ok with
    | false => exact Or.inl hx
    | true =>
      simp only [on_rsp_sub_market_data] at hx
      rcases (mem_sinsert _ _ _).1 hx with h | h
      · exact Or.inl h
      · exact Or.inr ⟨by rw [h], rfl⟩

theorem c8_sub_nack_not_added_witness :
    (on_rsp_sub_market_data ["b"] (some "a") false).1 = ["b"] ∧
    (("a" : String) ∈ (["b"] : List String) ∨
      (some ("a" : String) = some "a" ∧ (true : Bool) = true)) :=
  ⟨(c8_sub_nack_not_added ["b"] "a").1,
    (c8_sub_nack_not_added ["b"] "a").2.2 (some "a") true "a" (by decide)⟩

/-- C10.  A distributor message naming an unregistered client is a total
no-op: `UpdateSubscription`, `AddSubscription` and `RemoveSubscription`
return the state unchanged and emit nothing, and `QuerySubscription`
answers with the empty list. -/
theorem c10_unknown_client_noop (st : DistState) (client : String)
    (h : alookup st.subscribers client = none) :
    (∀ L, handleUpdateSubscription st client L = (st, [])) ∧
    (∀ i, handleAddSubscription st client i = (st, [])) ∧
    (∀ i, handleRemoveSubscription st client i = (st, [])) ∧
    handleQuerySubscription st client = [] := by
  refine ⟨?_, ?_, ?_, ?_⟩
  · intro L
    simp only [handleUpdateSubscription, h]
  · intro i
    simp only [handleAddSubscription, add_subscription, h]
  · intro i
    simp only [handleRemoveSubscription, remove_subscription, h]
  · simp only [handleQuerySubscription, h]

/-- C9.  For every login-field string of any byte length and any fixed-size
buffer (the native ABI arrays have positive length), filling the field copies
at most `bufLen - 1` bytes — the copied bytes are an exact prefix of the
string — writes a null byte at the index right after the copied bytes, and
the resulting buffer still has exactly `bufLen` bytes, so no write lands out
of bounds. -/
theorem c9_login_field_bounded_null_terminated (bufLen : Nat) (s : List Nat)
    (h : 0 < bufLen) :
    (fillLoginField bufLen s).length = bufLen ∧
    (fillLoginField bufLen s).take (min s.length (bufLen - 1)) =
      s.take (min s.length (bufLen - 1)) ∧
    (fillLoginField bufLen s).getD (min s.length (bufLen - 1)) 1 = 0 ∧
    min s.length (bufLen - 1) ≤ bufLen - 1 := by
  by_cases hs : s.isEmpty
  · have hs' : s = [] := by
      cases s with
      | nil => rfl
      | cons a l => simp [List.isEmpty] at hs
    subst hs'
    obtain ⟨n, rfl⟩ : ∃ n, bufLen = n + 1 := ⟨bufLen - 1, by omega⟩
    simp [fillLoginField, List.replicate_succ, List.getD]
  · have hsne : s.isEmpty = false := by
      cases s with
      | nil => simp at hs
      | cons a l => rfl
    have hfe : fillLoginField bufLen s =
        s.take (min s.length (bufLen - 1)) ++ [0] ++
          (List.replicate bufLen 0).drop (min s.length (bufLen - 1) + 1) := by
      simp [fillLoginField, hsne]
    have hcl : min s.length (bufLen - 1) ≤ s.length := Nat.min_le_left _ _
    have hcr : min s.length (bufLen - 1) ≤ bufLen - 1 := Nat.min_le_right _ _
    have hlen : (s.take (min s.length (bufLen - 1))).length =
        min s.length (bufLen - 1) := by
      rw [List.length_take]
      omega
    refine ⟨?_, ?_, ?_, hcr⟩
    · rw [hfe]
      simp only [List.length_append, List.length_drop, List.length_replicate,
        List.length_singleton, hlen]
      omega
    · rw [hfe, List.append_assoc]
      have ht := List.take_left (s.take (min s.length (bufLen - 1)))
        ([0] ++ (List.replicate bufLen 0).drop (min s.length (bufLen - 1) + 1))
      rw [hlen] at ht
      exact ht
    · rw [hfe, List.append_assoc, List.getD_append_right _ _ _ _ (by rw [hlen])]
      rw [hlen]
      simp [List.getD]

theorem c9_login_field_bounded_null_terminated_witness :
    0 < 4 ∧
    ((fillLoginField 4 [65, 66, 67, 68, 69]).length = 4 ∧
      (fillLoginField 4 [65, 66, 67, 68, 69]).take
          (min ([65, 66, 67, 68, 69] : List Nat).length (4 - 1)) =
        ([65, 66, 67, 68, 69] : List Nat).take
          (min ([65, 66, 67, 68, 69] : List Nat).length (4 - 1)) ∧
      (fillLoginField 4 [65, 66, 67, 68, 69]).getD
          (min ([65, 66, 67, 68, 69] : List Nat).length (4 - 1)) 1 = 0 ∧
      min ([65, 66, 67, 68, 69] : List Nat).length (4 - 1) ≤ 4 - 1) :=
  ⟨by decide, c9_login_field_bounded_null_terminated 4 [65, 66, 67, 68, 69] (by decide)⟩

theorem c10_unknown_client_noop_witness :
    alookup (⟨[("c", ⟨[]⟩)], [], [], [], [], [], []⟩ : DistState).subscribers
      "ghost" = none ∧
    handleQuerySubscription ⟨[("c", ⟨[]⟩)], [], [], [], [], [], []⟩ "ghost" = [] :=
  ⟨by decide,
    (c10_unknown_client_noop ⟨[("c", ⟨[]⟩)], [], [], [], [], [], []⟩ "ghost"
      (by decide)).2.2.2⟩

end QAMDGateway
